import Mathlib

/-!
Verification of the signal-settlement core of the Signalist backend
(`src/scripts/calculate-reward.js`, plus the target-flag update performed by
the signals controller's `updateSignalStatus`).

JavaScript numbers are modelled as follows: every concrete numeric value that
flows through the scan logic (candle fields, prices, timestamps) is a rational
number, so the bar-by-bar scan, validation and venue-fallback logic are fully
computable and decidable.  The terminal reward formula applies `Math.pow` with
a fractional exponent (the per-hour time decay), which has no exact computable
representation, so formula-level values live in `ℝ` using `Real.rpow`; Lean's
convention `x / 0 = 0` is used for division (no input below divides by zero).
Non-finite JavaScript numbers (`NaN`, `±Infinity`) matter only for the
parameter-validation layer of `calculateReward`; they are modelled there by
the `JNum` type.
-/

namespace Signalist

/-- One OHLCV candle.  The source represents a candle as the array
`[timestamp, open, high, low, close, volume]`; `c[0]`, `c[2]` and `c[3]` are
the fields the scan reads. -/
structure Candle where
  ts : ℚ
  openPrice : ℚ
  high : ℚ
  low : ℚ
  closePrice : ℚ
  volume : ℚ
deriving DecidableEq, Repr

/-- A normalized target as built by `rewarding` (calculate-reward.js lines
93-98): `{ value: Number(t), index: idx, touched: false, timestamp: null }`.
`timestamp = none` models the initial `null`. -/
structure NTarget where
  value : ℚ
  index : ℕ
  touched : Bool
  timestamp : Option ℚ
deriving DecidableEq, Repr

/-- JavaScript `Number(x)` applied to a timestamp that may be `null`
(`Number(null) = 0`), as done by `hoursBetween` on `exitTimeMs` and on
target timestamps. -/
def jsNumber (t : Option ℚ) : ℚ :=
  t.getD 0

/-- JavaScript truthiness of a numeric-or-null value: `null` and `0` are
falsy (line 175 of calculate-reward.js tests `maxTargetTime ? ... : 0`). -/
def jsTruthy (t : Option ℚ) : Bool :=
  match t with
  | none => false
  | some q => decide (q ≠ 0)

/-- Lines 100-101: `hoursBetween(t1, t0) = |Number(t1) - Number(t0)| / 3_600_000`. -/
def hoursBetween (t1 t0 : ℚ) : ℚ :=
  |t1 - t0| / 3600000

/-- Lines 93-98: `targets.map((t, idx) => ({value: Number(t), index: idx,
touched: false, timestamp: null}))`, written as a recursion carrying the next
index. -/
def normalizeFrom (i : ℕ) : List ℚ → List NTarget
  | [] => []
  | v :: vs => ⟨v, i, false, none⟩ :: normalizeFrom (i + 1) vs

/-- The normalized target list of `rewarding` (index starts at 0). -/
def normalizeTargets (targets : List ℚ) : List NTarget :=
  normalizeFrom 0 targets

/-- Lines 117-123: mark every still-untouched target whose value the candle's
high reaches, recording the candle timestamp. -/
def touchTargets (high ts : ℚ) (tgts : List NTarget) : List NTarget :=
  tgts.map fun tgt =>
    if !tgt.touched && decide (tgt.value ≤ high) then
      { tgt with touched := true, timestamp := some ts }
    else tgt

/-- Outcome of the candle loop of `rewarding` (lines 104-128).
`earlyZero` is the `return 0` taken when a candle's high is below the entry
point; `finished` carries `exitedByStop`, `exitTimeMs` and the final state of
the normalized targets when the loop ends by `break` or by exhausting the
candle list. -/
inductive ScanResult where
  | earlyZero : ScanResult
  | finished (exitedByStop : Bool) (exitTimeMs : Option ℚ) (targets : List NTarget) : ScanResult
deriving DecidableEq, Repr

/-- The candle loop of `rewarding` (lines 104-128): for each candle, if
`high >= entryPoint` then first check `low <= stopLoss` (breach exits the
loop recording the candle's timestamp), otherwise touch targets and continue;
if `high < entryPoint` the function returns 0 immediately. -/
def scan (entryPoint stopLoss : ℚ) : List Candle → List NTarget → ScanResult
  | [], tgts => .finished false none tgts
  | c :: rest, tgts =>
    if entryPoint ≤ c.high then
      if c.low ≤ stopLoss then
        .finished true (some c.ts) tgts
      else
        scan entryPoint stopLoss rest (touchTargets c.high c.ts tgts)
    else
      .earlyZero

/-- Lines 130-134: `touchedTargets.reduce((acc, cur) => cur.index > acc.index
? cur : acc)` over the touched targets, `null` when none is touched.
JavaScript `reduce` without an initial value starts from the first element. -/
def maxTouchedOf (tgts : List NTarget) : Option NTarget :=
  match tgts.filter (fun t => t.touched) with
  | [] => none
  | t :: ts => some (ts.foldl (fun acc cur => if acc.index < cur.index then cur else acc) t)

/-- Line 88: `const rewardBase = 1`. -/
def rewardBase : ℝ := 1

/-- Line 89: `const timeCost = 0.99999999`. -/
noncomputable def timeCost : ℝ := 99999999 / 100000000

/-- Line 90: `const targetCost = 0.99`. -/
noncomputable def targetCost : ℝ := 99 / 100

/-- The per-hour time decay `timeCost ** hours`.  `hours` is a fractional
number of hours, so JavaScript's `**` is real exponentiation (`Real.rpow`). -/
noncomputable def decay (hours : ℚ) : ℝ :=
  timeCost ^ (hours : ℝ)

/-- Lines 146-153: the contribution of the highest-index touched target:
`((maxTargetValue - entryPoint)/entryPoint) * timeCost ** maxHours *
targetCost ** maxTouched.index` with
`maxHours = hoursBetween(maxTouched.timestamp, startMs)`. -/
noncomputable def maxTouchedReward (entryPoint startMs : ℚ) (mt : NTarget) : ℝ :=
  (((mt.value - entryPoint) / entryPoint : ℚ) : ℝ)
    * decay (hoursBetween (jsNumber mt.timestamp) startMs)
    * targetCost ^ mt.index

/-- Lines 156-167: the summand added to `touchedSum` for one touched target. -/
noncomputable def touchedTerm (entryPoint startMs : ℚ) (t : NTarget) : ℝ :=
  (((t.value - entryPoint) / entryPoint : ℚ) : ℝ)
    * decay (hoursBetween (jsNumber t.timestamp) startMs)
    * targetCost ^ t.index

/-- Lines 171-182: the summand subtracted into `notTouchedSum` for one
untouched target.  The decay clock is the max touched target's timestamp, but
through the JavaScript conditional `maxTargetTime ? hoursBetween(...) : 0`,
so a `null` or `0` timestamp yields zero hours. -/
noncomputable def notTouchedTerm (startMs : ℚ) (maxTargetValue : ℚ)
    (maxTargetTime : Option ℚ) (t : NTarget) : ℝ :=
  -((((t.value - maxTargetValue) / maxTargetValue : ℚ) : ℝ)
      * decay (if jsTruthy maxTargetTime then hoursBetween (jsNumber maxTargetTime) startMs else 0)
      * targetCost ^ t.index)

/-- Lines 130-188: terminal resolution of `rewarding` after the candle loop.
An early `return 0` inside the loop short-circuits everything; otherwise the
stop-only penalty branch, the nothing-happened branch, or the touched-target
formula applies. -/
noncomputable def rewardOf (entryPoint stopLoss startMs : ℚ) : ScanResult → ℝ
  | .earlyZero => 0
  | .finished exitedByStop exitTimeMs tgts =>
    match maxTouchedOf tgts with
    | none =>
      if exitedByStop then
        -((((stopLoss - entryPoint) / entryPoint : ℚ) : ℝ)
            * decay (hoursBetween (jsNumber exitTimeMs) startMs)) * rewardBase
      else 0
    | some mt =>
      let touched := tgts.filter (fun t => t.touched)
      let notTouched := tgts.filter (fun t => !t.touched)
      let rewardPerTouched : ℝ :=
        if touched.length = 0 then 0
        else (touched.map (touchedTerm entryPoint startMs)).sum / touched.length
      let rewardPerNotTouched : ℝ :=
        if notTouched.length = 0 then 0
        else (notTouched.map (notTouchedTerm startMs mt.value mt.timestamp)).sum / notTouched.length
      (maxTouchedReward entryPoint startMs mt + rewardPerTouched + rewardPerNotTouched) * rewardBase

/-- The full `rewarding(candles, entryPoint, stopLoss, targets, startMs)`
function (lines 85-189): normalize targets, run the candle loop, resolve the
reward.  In the source, the stop-only branch returns before `maxTouched` is
even consulted; since that branch fires exactly when `maxTouched` is `null`
and `exitedByStop` holds, `rewardOf` reproduces the same case split.  The
accumulation loops over `normalizedTargets` guarded by `tgt.touched` are
written as sums over the corresponding filtered lists, in the same order. -/
noncomputable def rewarding (candles : List Candle) (entryPoint stopLoss : ℚ)
    (targets : List ℚ) (startMs : ℚ) : ℝ :=
  rewardOf entryPoint stopLoss startMs
    (scan entryPoint stopLoss candles (normalizeTargets targets))

/-! ### Spec-side model of the armed state machine (for claim C1)

The specification (section 4.2) describes an UNARMED/ARMED state machine in
which, once some candle arms the signal, scanning continues over every
subsequent candle until a stop breach or exhaustion of the candle list; a
post-arming candle whose high is below the entry point is merely scanned.
The following definitions follow the spec's words, for comparison with the
source-derived `scan`. -/

/-- ARMED state of the spec's state machine: each candle is checked for a
stop breach, then for target touches; scanning continues across candles. -/
def scanSpecArmed (entryPoint stopLoss : ℚ) : List Candle → List NTarget → ScanResult
  | [], tgts => .finished false none tgts
  | c :: rest, tgts =>
    if c.low ≤ stopLoss then
      .finished true (some c.ts) tgts
    else
      scanSpecArmed entryPoint stopLoss rest (touchTargets c.high c.ts tgts)

/-- UNARMED state of the spec's state machine: if the first evaluated
candle's high is below the entry point the computation aborts with reward 0,
otherwise the machine transitions to ARMED on that same candle. -/
def scanSpec (entryPoint stopLoss : ℚ) : List Candle → List NTarget → ScanResult
  | [], tgts => .finished false none tgts
  | c :: rest, tgts =>
    if entryPoint ≤ c.high then
      scanSpecArmed entryPoint stopLoss (c :: rest) tgts
    else
      .earlyZero

/-- The reward computation with the spec's armed scan in place of the
source's candle loop (terminal resolution unchanged). -/
noncomputable def rewardingSpecArmed (candles : List Candle) (entryPoint stopLoss : ℚ)
    (targets : List ℚ) (startMs : ℚ) : ℝ :=
  rewardOf entryPoint stopLoss startMs
    (scanSpec entryPoint stopLoss candles (normalizeTargets targets))

/-! ### Claim-side reward formula (for claim C3)

These definitions transcribe the formulas exactly as the claim states them:
the untouched-target decay clock is always `hoursBetween(maxTouched.touchedAt,
windowStart)`, with no special case for a zero timestamp. -/

/-- Arithmetic mean of a list of reals, `0` for the empty list. -/
noncomputable def meanR (l : List ℝ) : ℝ :=
  if l.length = 0 then 0 else l.sum / l.length

/-- The claim's untouched-target term:
`-((t.value - maxTouched.value)/maxTouched.value) * 0.99999999^h(maxTouched) *
0.99^t.index`, using the max touched target's timestamp as the decay clock. -/
noncomputable def claimNotTouchedTerm (startMs : ℚ) (maxTargetValue : ℚ)
    (maxTargetTime : Option ℚ) (t : NTarget) : ℝ :=
  -((((t.value - maxTargetValue) / maxTargetValue : ℚ) : ℝ)
      * decay (hoursBetween (jsNumber maxTargetTime) startMs)
      * targetCost ^ t.index)

/-- The reward as claim C3 states it: `maxTouchedReward + rewardPerTouched +
rewardPerNotTouched` with the three pieces given by the claim's formulas. -/
noncomputable def claimRewardFormula (entryPoint startMs : ℚ) (mt : NTarget)
    (tgts : List NTarget) : ℝ :=
  maxTouchedReward entryPoint startMs mt
    + meanR ((tgts.filter (fun t => t.touched)).map (touchedTerm entryPoint startMs))
    + meanR ((tgts.filter (fun t => !t.touched)).map (claimNotTouchedTerm startMs mt.value mt.timestamp))

/-- The amended reward formula: identical to `claimRewardFormula` except
that, as in the source's `maxTargetTime ? hoursBetween(...) : 0`, the
untouched-target decay exponent collapses to zero hours when the max touched
target's timestamp is `null` or `0`. -/
noncomputable def amendedRewardFormula (entryPoint startMs : ℚ) (mt : NTarget)
    (tgts : List NTarget) : ℝ :=
  maxTouchedReward entryPoint startMs mt
    + meanR ((tgts.filter (fun t => t.touched)).map (touchedTerm entryPoint startMs))
    + meanR ((tgts.filter (fun t => !t.touched)).map (notTouchedTerm startMs mt.value mt.timestamp))

/-! ### Parameter validation of `calculateReward` (claims C4, C5)

`calculateReward` (lines 194-229) destructures its params object, runs four
guard clauses, awaits `getData`, and returns `rewarding(...)`.  A JavaScript
number that may be non-finite is modelled by `JNum`; an absent (`undefined`)
field by `Option`. -/

/-- A JavaScript number: finite (modelled exactly by a rational), `NaN`, or
a signed infinity. -/
inductive JNum where
  | fin : ℚ → JNum
  | nan : JNum
  | posInf : JNum
  | negInf : JNum
deriving DecidableEq, Repr

/-- The parameters object of `calculateReward` (destructured on lines
195-204).  `none` models an `undefined` field; `targets = none` models a
value that is not an array. -/
structure CRParams where
  market : Option String
  startTime : Option String
  endTime : Option String
  entryPoint : Option JNum
  stopLoss : Option JNum
  targets : Option (List JNum)
deriving DecidableEq, Repr

/-- JavaScript truthiness of a string-or-undefined value (`!market`,
`!startTime`, `!endTime`): `undefined` and the empty string are falsy. -/
def jsTruthyStr (s : Option String) : Bool :=
  match s with
  | none => false
  | some str => decide (str ≠ "")

/-- The four guard clauses of `calculateReward` (lines 206-212), in source
order, with the source's error messages. -/
def validateParams (p : CRParams) : Except String Unit :=
  if !jsTruthyStr p.market then
    .error "market is required"
  else if !jsTruthyStr p.startTime || !jsTruthyStr p.endTime then
    .error "startTime and endTime are required (ISO8601)"
  else if p.entryPoint = none ∨ p.stopLoss = none then
    .error "entryPoint and stopLoss are required"
  else
    match p.targets with
    | some (_ :: _) => .ok ()
    | _ => .error "targets must be a non-empty array of numbers"

/-! ### The market data fetcher `getData` (claim C6)

`getData` (lines 7-79) builds exchange instances from a candidate list,
pages OHLCV batches per venue, and falls through the candidate list until a
venue yields a non-empty candle list.  The upstream exchange SDK is external
to the repository, so one venue is modelled as a validity flag (`ccxt[id]`
exists) together with an oracle for `fetchOHLCV` mapping a `since` cursor to
a batch or a thrown error.  `loadMarkets` errors are swallowed by the source
(`try {} catch (_) {}`) and have no observable effect, so they are omitted. -/

structure Venue where
  valid : Bool
  fetchOHLCV : ℚ → Except String (List Candle)

/-- Cursor update of the paging loop (lines 64-65): `lastTs === since ?
since + 1 : lastTs + 1` where `lastTs = batch[batch.length - 1][0]`. -/
def nextSince (since : ℚ) (batch : List Candle) : ℚ :=
  match batch.getLast? with
  | none => since + 1
  | some c => if c.ts = since then since + 1 else c.ts + 1

/-- The per-venue paging loop (lines 54-66): while `since < endMs`, fetch a
batch; an empty batch breaks; otherwise append and advance the cursor to one
past the last candle's timestamp (or by one if the cursor did not move).  The
source's `while` loop need not terminate for adversarial oracles, so the
model carries explicit fuel (fuel exhaustion exits the loop); the theorems
quantify over the fuel. -/
def pageLoop (fetch : ℚ → Except String (List Candle)) (endMs : ℚ) :
    ℕ → ℚ → List Candle → Except String (List Candle)
  | 0, _, all => .ok all
  | fuel + 1, since, all =>
    if since < endMs then
      match fetch since with
      | .error e => .error e
      | .ok [] => .ok all
      | .ok (b :: bs) =>
        pageLoop fetch endMs fuel (nextSince since (b :: bs)) (all ++ (b :: bs))
    else .ok all

/-- What one venue contributes inside the `for` loop of lines 51-74: the
whole paging run starting from the timeframe-floored cursor `since0`. -/
def venueOutcome (v : Venue) (endMs since0 : ℚ) (fuel : ℕ) : Except String (List Candle) :=
  pageLoop v.fetchOHLCV endMs fuel since0 []

/-- Error surface of `getData`: either no candidate id names a supported
exchange (line 37), or every venue failed and the final error carries the
last underlying venue error, if any venue threw one (lines 76-78). -/
inductive GetDataErr where
  | unsupported : GetDataErr
  | failed (lastError : Option String) : GetDataErr
deriving DecidableEq, Repr

/-- The venue fallback loop (lines 50-74): skip candidates that do not
build; run the paging loop; a thrown error records `lastError` and moves on;
a non-empty result returns immediately; an empty result moves on without
touching `lastError`.  Falling off the list throws the aggregate error. -/
def tryVenues (endMs since0 : ℚ) (fuel : ℕ) :
    List Venue → Option String → Except GetDataErr (List Candle)
  | [], lastError => .error (.failed lastError)
  | v :: rest, lastError =>
    if v.valid then
      match venueOutcome v endMs since0 fuel with
      | .error e => tryVenues endMs since0 fuel rest (some e)
      | .ok [] => tryVenues endMs since0 fuel rest lastError
      | .ok (c :: cs) => .ok (c :: cs)
    else
      tryVenues endMs since0 fuel rest lastError

/-- The value of the loop's `lastError` variable after processing a list of
venues: each venue that builds and whose paging run throws overwrites it;
all other venues leave it alone. -/
def lastErrAfter (endMs since0 : ℚ) (fuel : ℕ) :
    List Venue → Option String → Option String
  | [], lastError => lastError
  | v :: rest, lastError =>
    if v.valid then
      match venueOutcome v endMs since0 fuel with
      | .error m => lastErrAfter endMs since0 fuel rest (some m)
      | .ok _ => lastErrAfter endMs since0 fuel rest lastError
    else
      lastErrAfter endMs since0 fuel rest lastError

/-- `getData` (lines 7-79) restricted to what the repository owns: the
candidate-list fallback.  Timestamp parsing and `parseTimeframe` belong to
the external SDK, so the parsed bounds and the floored start cursor are taken
as inputs.  If no candidate builds, line 37 throws `Unsupported
exchangeId(s)` before any fetch. -/
def getData (venues : List Venue) (endMs since0 : ℚ) (fuel : ℕ) :
    Except GetDataErr (List Candle) :=
  if venues.all (fun v => !v.valid) then
    .error .unsupported
  else
    tryVenues endMs since0 fuel venues none

/-- A venue that fails for the purposes of the fallback loop: it does not
build, its paging run throws, or its paging run yields no candles. -/
def failsVenue (v : Venue) (endMs since0 : ℚ) (fuel : ℕ) : Prop :=
  v.valid = false
    ∨ (∃ m, venueOutcome v endMs since0 fuel = .error m)
    ∨ venueOutcome v endMs since0 fuel = .ok []

/-- A venue whose paging run throws (it both builds and errors); only these
venues update `lastError`. -/
def errorsVenue (v : Venue) (endMs since0 : ℚ) (fuel : ℕ) : Prop :=
  v.valid = true ∧ ∃ m, venueOutcome v endMs since0 fuel = .error m

/-! ### The orchestration of `calculateReward` (claims C4, C5) -/

/-- The message of the error thrown when the fetch stage fails (lines 37 and
76-78 of calculate-reward.js). -/
def fetchErrMsg : GetDataErr → String
  | .unsupported => "Unsupported exchangeId(s)"
  | .failed _ => "Failed to fetch OHLCV from exchanges"

/-- `calculateReward` up to and including the candle fetch (lines 194-220):
guard clauses first, then the awaited `getData` result.  The fetch is an
oracle argument standing for the awaited network call; the guard clauses run
strictly before it.  Returns the fetched `{candles, startMs}` pair. -/
def calculateRewardFetch (p : CRParams)
    (fetched : Except GetDataErr (List Candle × ℚ)) :
    Except String (List Candle × ℚ) :=
  match validateParams p with
  | .error m => .error m
  | .ok _ =>
    match fetched with
    | .error e => .error (fetchErrMsg e)
    | .ok r => .ok r

/-- The whole of `calculateReward` (lines 194-229) on finite numeric
parameters (the domain on which `Number(entryPoint)`, `Number(stopLoss)` and
`targets.map(Number)` are the identity): validation, fetch, then the single
scalar `rewarding(...)` result.  The returned value is the scalar reward and
nothing else. -/
noncomputable def calculateRewardRun (market startTime endTime : Option String)
    (entryPoint stopLoss : ℚ) (targets : List ℚ)
    (fetched : Except GetDataErr (List Candle × ℚ)) : Except String ℝ :=
  match validateParams ⟨market, startTime, endTime, some (.fin entryPoint),
      some (.fin stopLoss), some (targets.map JNum.fin)⟩ with
  | .error m => .error m
  | .ok _ =>
    match fetched with
    | .error e => .error (fetchErrMsg e)
    | .ok (candles, startMs) => .ok (rewarding candles entryPoint stopLoss targets startMs)

/-! ### The caller-visible frame of `rewarding` (claim C9)

`rewarding` receives `targets` as a JavaScript array of numbers
(`targets.map(Number)` at the call site, line 225).  Line 93 builds the
working records with `targets.map((t, idx) => ({ ... }))`, which allocates a
fresh object per target; the `tgt.touched = true` / `tgt.timestamp = ts`
writes on lines 120-121 hit only those fresh records.  The incoming array is
never written (no index assignment, no method that mutates), and its elements
are primitives, so the caller's argument after the call is exactly the list
that was passed in; the embedding returns it alongside the reward. -/

/-- One invocation of `rewarding` as the caller observes it: the returned
reward together with the caller's `targets` argument as it stands after the
call. -/
noncomputable def rewardingCall (candles : List Candle) (entryPoint stopLoss : ℚ)
    (targets : List ℚ) (startMs : ℚ) : ℝ × List ℚ :=
  (rewarding candles entryPoint stopLoss targets startMs, targets)

/-! ### The signal controller's target-flag update (claim C4)

`updateSignalStatus` (signals controller) does not receive per-target state
from `calculateReward`; it re-fetches candles itself and recomputes each
target's `touched` flag from the range of the fetched candles. -/

/-- Highest high of a non-empty candle list (`Math.max(...highs)`). -/
def maxHighOf (c : Candle) (cs : List Candle) : ℚ :=
  (cs.map (fun x => x.high)).foldl max c.high

/-- Lowest low of a non-empty candle list (`Math.min(...lows)`). -/
def minLowOf (c : Candle) (cs : List Candle) : ℚ :=
  (cs.map (fun x => x.low)).foldl min c.low

/-- The controller's per-target range test: an upward target
(`value > entryPoint`) is touched when the window's maximum high reaches it,
otherwise when the window's minimum low reaches down to it. -/
def touchedByRange (entryPoint maxHigh minLow value : ℚ) : Bool :=
  if entryPoint < value then decide (value ≤ maxHigh) else decide (minLow ≤ value)

/-- `Number(value).toFixed(8)` then `parseFloat`: round to 8 decimal places
(ties round half away from zero on non-negative values, matching `toFixed`
on the values this code handles). -/
def toFixed8 (q : ℚ) : ℚ :=
  (round (q * 100000000) : ℤ) / 100000000

/-- The `updatedTargets` computation of `updateSignalStatus`: with a
non-empty fetched candle list, every target keeps its position and is marked
`touched := touched || touchedByRange(...)`; with no candles the targets are
left as they are (the source's `if (Array.isArray(candles) &&
candles.length > 0)` guard). -/
def updateSignalTargets (entryPoint : ℚ) (candles : List Candle)
    (targets : List (ℚ × Bool)) : List (ℚ × Bool) :=
  match candles with
  | [] => targets
  | c :: cs =>
    targets.map fun vt =>
      (toFixed8 vt.1, vt.2 || touchedByRange entryPoint (maxHighOf c cs) (minLowOf c cs) vt.1)

/-! ## Helper lemmas -/

/-- Touching targets never changes a target's index. -/
lemma touchTargets_map_index (high ts : ℚ) (l : List NTarget) :
    (touchTargets high ts l).map (fun t => t.index) = l.map (fun t => t.index) := by
  simp only [touchTargets, List.map_map]
  congr 1
  funext t
  simp only [Function.comp_apply]
  split <;> rfl

/-- Scanning a block of candles that are all armed (`high ≥ entryPoint`) and
stop-free (`low > stopLoss`) just folds the target-touching step over them
and continues with the remaining candles. -/
lemma scan_append_armed (entryPoint stopLoss : ℚ) (pre l : List Candle)
    (h : ∀ p ∈ pre, entryPoint ≤ p.high ∧ stopLoss < p.low) :
    ∀ ts0 : List NTarget,
      scan entryPoint stopLoss (pre ++ l) ts0 =
        scan entryPoint stopLoss l
          (pre.foldl (fun acc p => touchTargets p.high p.ts acc) ts0) := by
  induction pre with
  | nil => intro ts0; rfl
  | cons c pre ih =>
    intro ts0
    have hc := h c (List.mem_cons_self c pre)
    have hrest : ∀ p ∈ pre, entryPoint ≤ p.high ∧ stopLoss < p.low :=
      fun p hp => h p (List.mem_cons_of_mem c hp)
    simp only [List.cons_append, scan, List.foldl_cons]
    rw [if_pos hc.1, if_neg (not_le.mpr hc.2)]
    exact ih hrest _

/-- A finished scan leaves the target indices exactly as they started. -/
lemma scan_finished_map_index (entryPoint stopLoss : ℚ) (candles : List Candle) :
    ∀ (ts0 : List NTarget) (ex : Bool) (et : Option ℚ) (tgts : List NTarget),
      scan entryPoint stopLoss candles ts0 = .finished ex et tgts →
      tgts.map (fun t => t.index) = ts0.map (fun t => t.index) := by
  induction candles with
  | nil =>
    intro ts0 ex et tgts h
    simp only [scan] at h
    cases h
    rfl
  | cons c rest ih =>
    intro ts0 ex et tgts h
    simp only [scan] at h
    by_cases h1 : entryPoint ≤ c.high
    · rw [if_pos h1] at h
      by_cases h2 : c.low ≤ stopLoss
      · rw [if_pos h2] at h
        cases h
        rfl
      · rw [if_neg h2] at h
        rw [ih _ _ _ _ h, touchTargets_map_index]
    · rw [if_neg h1] at h
      exact ScanResult.noConfusion h

/-- Every normalized target built from index `i` onwards has index at least
`i`. -/
lemma normalizeFrom_index_ge (l : List ℚ) :
    ∀ i, ∀ t ∈ normalizeFrom i l, i ≤ t.index := by
  induction l with
  | nil => intro i t ht; simp [normalizeFrom] at ht
  | cons v vs ih =>
    intro i t ht
    simp only [normalizeFrom, List.mem_cons] at ht
    rcases ht with rfl | ht
    · exact le_refl _
    · exact le_trans (Nat.le_succ i) (ih (i + 1) t ht)

/-- The indices of the normalized target list are pairwise distinct. -/
lemma normalizeFrom_map_index_nodup (l : List ℚ) :
    ∀ i, ((normalizeFrom i l).map (fun t => t.index)).Nodup := by
  induction l with
  | nil => intro i; simp [normalizeFrom]
  | cons v vs ih =>
    intro i
    simp only [normalizeFrom, List.map_cons, List.nodup_cons]
    refine ⟨?_, ih (i + 1)⟩
    intro hmem
    rcases List.mem_map.mp hmem with ⟨t, ht, hidx⟩
    have := normalizeFrom_index_ge vs (i + 1) t ht
    omega

/-- Normalization keeps the target values in order. -/
lemma normalizeFrom_map_value (l : List ℚ) :
    ∀ i, (normalizeFrom i l).map (fun t => t.value) = l := by
  induction l with
  | nil => intro i; rfl
  | cons v vs ih => intro i; simp [normalizeFrom, ih]

/-- Freshly normalized targets start untouched with a null timestamp. -/
lemma normalizeFrom_untouched (l : List ℚ) :
    ∀ i, ∀ t ∈ normalizeFrom i l, t.touched = false ∧ t.timestamp = none := by
  induction l with
  | nil => intro i t ht; simp [normalizeFrom] at ht
  | cons v vs ih =>
    intro i t ht
    simp only [normalizeFrom, List.mem_cons] at ht
    rcases ht with rfl | ht
    · exact ⟨rfl, rfl⟩
    · exact ih (i + 1) t ht

/-- If mapping `f` over a list gives pairwise distinct results, `f` is
injective on the list's members. -/
lemma inj_on_of_map_nodup {α β : Type} {f : α → β} {l : List α}
    (hnd : (l.map f).Nodup) : ∀ x ∈ l, ∀ y ∈ l, f x = f y → x = y := by
  induction l with
  | nil => intro x hx; simp at hx
  | cons a l ih =>
    simp only [List.map_cons, List.nodup_cons] at hnd
    intro x hx y hy hf
    have hnmem : f a ∉ l.map f := hnd.1
    rcases List.mem_cons.mp hx with hxa | hxl
    · rcases List.mem_cons.mp hy with hya | hyl
      · rw [hxa, hya]
      · exfalso
        apply hnmem
        have hfa : f a = f y := by rw [← hxa, hf]
        rw [hfa]
        exact List.mem_map_of_mem f hyl
    · rcases List.mem_cons.mp hy with hya | hyl
      · exfalso
        apply hnmem
        have hfa : f a = f x := by rw [← hya, ← hf]
        rw [hfa]
        exact List.mem_map_of_mem f hxl
      · exact ih hnd.2 x hxl y hyl hf

/-- The reduce step of `maxTouchedOf` never leaves the candidate set. -/
lemma foldl_maxIndex_mem : ∀ (l : List NTarget) (a : NTarget),
    l.foldl (fun acc cur => if acc.index < cur.index then cur else acc) a = a
      ∨ l.foldl (fun acc cur => if acc.index < cur.index then cur else acc) a ∈ l := by
  intro l
  induction l with
  | nil => intro a; exact Or.inl rfl
  | cons b l ih =>
    intro a
    simp only [List.foldl_cons]
    have ha2 : (if a.index < b.index then b else a) = b
        ∨ (if a.index < b.index then b else a) = a := by
      by_cases hab : a.index < b.index
      · exact Or.inl (if_pos hab)
      · exact Or.inr (if_neg hab)
    rcases ih (if a.index < b.index then b else a) with h | h
    · rcases ha2 with h2 | h2
      · refine Or.inr ?_
        rw [h, h2]
        exact List.mem_cons_self b l
      · refine Or.inl ?_
        rw [h, h2]
    · exact Or.inr (List.mem_cons_of_mem b h)

/-- The reduce step of `maxTouchedOf` dominates every candidate's index. -/
lemma foldl_maxIndex_le : ∀ (l : List NTarget) (a x : NTarget),
    (x = a ∨ x ∈ l) →
    x.index ≤ (l.foldl (fun acc cur => if acc.index < cur.index then cur else acc) a).index := by
  intro l
  induction l with
  | nil =>
    intro a x hx
    rcases hx with rfl | hx
    · exact le_refl _
    · simp at hx
  | cons b l ih =>
    intro a x hx
    simp only [List.foldl_cons]
    have hstep : ∀ y : NTarget, (y = a ∨ y = b) →
        y.index ≤ (if a.index < b.index then b else a).index := by
      intro y hy
      by_cases hab : a.index < b.index
      · rw [if_pos hab]
        rcases hy with rfl | rfl <;> omega
      · rw [if_neg hab]
        rcases hy with rfl | rfl <;> omega
    rcases hx with rfl | hx
    · exact le_trans (hstep x (Or.inl rfl)) (ih _ _ (Or.inl rfl))
    · rcases List.mem_cons.mp hx with rfl | hx
      · exact le_trans (hstep x (Or.inr rfl)) (ih _ _ (Or.inl rfl))
      · exact ih _ x (Or.inr hx)

/-- With a strictly maximal element `mt` among the candidates, the reduce of
`maxTouchedOf` returns exactly `mt`. -/
lemma foldl_maxIndex_eq (l : List NTarget) (a mt : NTarget)
    (hmem : mt = a ∨ mt ∈ l)
    (hmax : ∀ x, (x = a ∨ x ∈ l) → x ≠ mt → x.index < mt.index) :
    l.foldl (fun acc cur => if acc.index < cur.index then cur else acc) a = mt := by
  by_contra hne
  have h1 :
      (l.foldl (fun acc cur => if acc.index < cur.index then cur else acc) a).index
        < mt.index := by
    rcases foldl_maxIndex_mem l a with h | h
    · exact hmax _ (Or.inl h) hne
    · exact hmax _ (Or.inr h) hne
  have h2 := foldl_maxIndex_le l a mt hmem
  omega

/-- `maxTouchedOf` returns the touched target of (unique) highest index. -/
lemma maxTouchedOf_eq_some (tgts : List NTarget) (mt : NTarget)
    (hnd : (tgts.map (fun t => t.index)).Nodup)
    (hmem : mt ∈ tgts) (htch : mt.touched = true)
    (hmax : ∀ t ∈ tgts, t.touched = true → t.index ≤ mt.index) :
    maxTouchedOf tgts = some mt := by
  have hmemf : mt ∈ tgts.filter (fun t => t.touched) :=
    List.mem_filter.mpr ⟨hmem, htch⟩
  unfold maxTouchedOf
  cases hfl : tgts.filter (fun t => t.touched) with
  | nil => rw [hfl] at hmemf; simp at hmemf
  | cons t ts =>
    rw [hfl] at hmemf
    have hsub : ∀ x, (x = t ∨ x ∈ ts) → x ∈ tgts := by
      intro x hx
      have hxf : x ∈ tgts.filter (fun t => t.touched) := by
        rw [hfl]
        rcases hx with rfl | hx
        · exact List.mem_cons_self x ts
        · exact List.mem_cons_of_mem t hx
      exact (List.mem_filter.mp hxf).1
    have htchf : ∀ x, (x = t ∨ x ∈ ts) → x.touched = true := by
      intro x hx
      have hxf : x ∈ tgts.filter (fun t => t.touched) := by
        rw [hfl]
        rcases hx with rfl | hx
        · exact List.mem_cons_self x ts
        · exact List.mem_cons_of_mem t hx
      exact (List.mem_filter.mp hxf).2
    have hstrict : ∀ x, (x = t ∨ x ∈ ts) → x ≠ mt → x.index < mt.index := by
      intro x hx hne
      have hle : x.index ≤ mt.index := hmax x (hsub x hx) (htchf x hx)
      have hneq : x.index ≠ mt.index := fun heq =>
        hne (inj_on_of_map_nodup hnd x (hsub x hx) mt hmem heq)
      omega
    have hmem2 : mt = t ∨ mt ∈ ts := by
      rcases List.mem_cons.mp hmemf with h | h
      · exact Or.inl h
      · exact Or.inr h
    show some (ts.foldl (fun acc cur => if acc.index < cur.index then cur else acc) t) = some mt
    rw [foldl_maxIndex_eq ts t mt hmem2 hstrict]

/-- If every venue of a list fails, the fallback loop falls off the end and
throws the aggregate error carrying the loop's final `lastError`. -/
lemma tryVenues_all_fail (endMs since0 : ℚ) (fuel : ℕ) (vs : List Venue)
    (h : ∀ u ∈ vs, failsVenue u endMs since0 fuel) :
    ∀ le, tryVenues endMs since0 fuel vs le =
      .error (.failed (lastErrAfter endMs since0 fuel vs le)) := by
  induction vs with
  | nil => intro le; rfl
  | cons v rest ih =>
    intro le
    have hv := h v (List.mem_cons_self v rest)
    have hrest : ∀ u ∈ rest, failsVenue u endMs since0 fuel :=
      fun u hu => h u (List.mem_cons_of_mem v hu)
    simp only [tryVenues, lastErrAfter]
    by_cases hval : v.valid
    · rw [if_pos hval, if_pos hval]
      cases hout : venueOutcome v endMs since0 fuel with
      | error m => exact ih hrest (some m)
      | ok cs =>
        cases cs with
        | nil => exact ih hrest le
        | cons c cs =>
          exfalso
          rcases hv with hv | ⟨m, hv⟩ | hv
          · rw [hval] at hv; cases hv
          · rw [hout] at hv; cases hv
          · rw [hout] at hv; cases hv
    · rw [if_neg hval, if_neg hval]
      exact ih hrest le

/-- Venues that never throw leave `lastError` untouched. -/
lemma lastErrAfter_no_errors (endMs since0 : ℚ) (fuel : ℕ) (vs : List Venue)
    (h : ∀ u ∈ vs, ¬ errorsVenue u endMs since0 fuel) :
    ∀ le, lastErrAfter endMs since0 fuel vs le = le := by
  induction vs with
  | nil => intro le; rfl
  | cons v rest ih =>
    intro le
    have hv := h v (List.mem_cons_self v rest)
    have hrest : ∀ u ∈ rest, ¬ errorsVenue u endMs since0 fuel :=
      fun u hu => h u (List.mem_cons_of_mem v hu)
    simp only [lastErrAfter]
    by_cases hval : v.valid
    · rw [if_pos hval]
      cases hout : venueOutcome v endMs since0 fuel with
      | error m => exact absurd ⟨hval, m, hout⟩ hv
      | ok cs => exact ih hrest le
    · rw [if_neg hval]
      exact ih hrest le

/-- `lastError` threads left to right through a concatenation of venues. -/
lemma lastErrAfter_append (endMs since0 : ℚ) (fuel : ℕ) (xs ys : List Venue) :
    ∀ le, lastErrAfter endMs since0 fuel (xs ++ ys) le =
      lastErrAfter endMs since0 fuel ys (lastErrAfter endMs since0 fuel xs le) := by
  induction xs with
  | nil => intro le; rfl
  | cons v rest ih =>
    intro le
    simp only [List.cons_append, lastErrAfter]
    by_cases hval : v.valid
    · rw [if_pos hval, if_pos hval]
      cases venueOutcome v endMs since0 fuel with
      | error m => exact ih (some m)
      | ok cs => exact ih le
    · rw [if_neg hval, if_neg hval]
      exact ih le

/-- After any block of failing venues, the first venue with a non-empty
paging result wins, whatever `lastError` has accumulated. -/
lemma tryVenues_first_success (endMs since0 : ℚ) (fuel : ℕ)
    (pre post : List Venue) (v : Venue) (c : Candle) (cs : List Candle)
    (hpre : ∀ u ∈ pre, failsVenue u endMs since0 fuel)
    (hval : v.valid = true)
    (hout : venueOutcome v endMs since0 fuel = .ok (c :: cs)) :
    ∀ le, tryVenues endMs since0 fuel (pre ++ v :: post) le = .ok (c :: cs) := by
  induction pre with
  | nil =>
    intro le
    simp only [List.nil_append, tryVenues]
    rw [if_pos hval, hout]
  | cons u pre ih =>
    intro le
    have hu := hpre u (List.mem_cons_self u pre)
    have hrest : ∀ w ∈ pre, failsVenue w endMs since0 fuel :=
      fun w hw => hpre w (List.mem_cons_of_mem u hw)
    simp only [List.cons_append, tryVenues]
    by_cases huval : u.valid
    · rw [if_pos huval]
      cases huout : venueOutcome u endMs since0 fuel with
      | error m => exact ih hrest (some m)
      | ok ucs =>
        cases ucs with
        | nil => exact ih hrest le
        | cons d ds =>
          exfalso
          rcases hu with hu | ⟨m, hu⟩ | hu
          · rw [huval] at hu; cases hu
          · rw [huout] at hu; cases hu
          · rw [huout] at hu; cases hu
    · rw [if_neg huval]
      exact ih hrest le

/-- If some venue of the list does not fail, the fallback loop succeeds. -/
lemma tryVenues_ok_of_not_fails (endMs since0 : ℚ) (fuel : ℕ) (vs : List Venue)
    (h : ∃ u ∈ vs, ¬ failsVenue u endMs since0 fuel) :
    ∀ le, ∃ r, tryVenues endMs since0 fuel vs le = .ok r := by
  induction vs with
  | nil => rcases h with ⟨u, hu, _⟩; simp at hu
  | cons v rest ih =>
    intro le
    simp only [tryVenues]
    by_cases hval : v.valid
    · rw [if_pos hval]
      cases hout : venueOutcome v endMs since0 fuel with
      | error m =>
        refine ih ?_ (some m)
        rcases h with ⟨u, hu, hnf⟩
        rcases List.mem_cons.mp hu with rfl | humem
        · exact absurd (Or.inr (Or.inl ⟨m, hout⟩)) hnf
        · exact ⟨u, humem, hnf⟩
      | ok cs =>
        cases cs with
        | nil =>
          refine ih ?_ le
          rcases h with ⟨u, hu, hnf⟩
          rcases List.mem_cons.mp hu with rfl | humem
          · exact absurd (Or.inr (Or.inr hout)) hnf
          · exact ⟨u, humem, hnf⟩
        | cons c cs => exact ⟨c :: cs, rfl⟩
    · rw [if_neg hval]
      refine ih ?_ le
      rcases h with ⟨u, hu, hnf⟩
      rcases List.mem_cons.mp hu with rfl | humem
      · exact absurd (Or.inl (by simpa using hval)) hnf
      · exact ⟨u, humem, hnf⟩

/-! ## Claim theorems -/

/-- Claim C7 (confirmed): for every candle sequence whose first candle has
`high < entryPoint`, `rewarding` returns exactly 0, regardless of the
contents of all subsequent candles. -/
theorem C7_first_candle_below_entry_zero (c : Candle) (rest : List Candle)
    (entryPoint stopLoss startMs : ℚ) (targets : List ℚ)
    (hc : c.high < entryPoint) :
    rewarding (c :: rest) entryPoint stopLoss targets startMs = 0 := by
  rw [rewarding]
  simp only [scan]
  rw [if_neg (not_le.mpr hc)]
  rfl

/-- Witness for C7: a first candle with high 99 against entry 100 yields
reward 0 even though a later candle would have touched the target. -/
theorem C7_witness :
    rewarding [⟨0, 0, 99, 50, 0, 0⟩, ⟨60000, 0, 500, 400, 0, 0⟩] 100 1 [110] 0 = 0 :=
  C7_first_candle_below_entry_zero ⟨0, 0, 99, 50, 0, 0⟩ [⟨60000, 0, 500, 400, 0, 0⟩]
    100 1 0 [110] (by norm_num)

/-- Claim C1 (corrected), counterexample: the claim says a candle occurring
after the arming candle whose high is below the entry point does not
terminate the computation with reward 0.  In the source it does: the first
candle (high 120) arms and touches the target, the second candle (high 99)
hits the `else return 0` branch, and `rewarding` returns 0, whereas the
spec's armed state machine (`rewardingSpecArmed`) keeps the touch and
returns 1/5. -/
theorem C1_counterexample :
    rewarding [⟨0, 0, 120, 50, 0, 0⟩, ⟨60000, 0, 99, 98, 0, 0⟩] 100 1 [110] 0 = 0 ∧
    rewardingSpecArmed [⟨0, 0, 120, 50, 0, 0⟩, ⟨60000, 0, 99, 98, 0, 0⟩] 100 1 [110] 0 = 1 / 5 := by
  constructor
  · have h : scan 100 1 [⟨0, 0, 120, 50, 0, 0⟩, ⟨60000, 0, 99, 98, 0, 0⟩]
        (normalizeTargets [110]) = .earlyZero := by decide
    rw [rewarding, h]
    rfl
  · have h : scanSpec 100 1 [⟨0, 0, 120, 50, 0, 0⟩, ⟨60000, 0, 99, 98, 0, 0⟩]
        (normalizeTargets [110]) = .finished false none [⟨110, 0, true, some 0⟩] := by decide
    rw [rewardingSpecArmed, h]
    simp only [rewardOf, maxTouchedOf]
    norm_num [hoursBetween, jsNumber, jsTruthy, decay, rewardBase, targetCost,
      touchedTerm, notTouchedTerm, maxTouchedReward, Real.rpow_zero]

/-- Claim C1 (corrected), amended: the scan continues over subsequent
candles only while each candle's high stays at or above the entry point;
any candle with `high < entryPoint` — before or after arming — terminates
the computation immediately with reward 0, discarding earlier touches; if
instead every candle is armed and stop-free, the scan visits the whole
candle list. -/
theorem C1_scan_termination_amended (entryPoint stopLoss startMs : ℚ) (targets : List ℚ) :
    (∀ (pre : List Candle) (c : Candle) (rest : List Candle),
        (∀ p ∈ pre, entryPoint ≤ p.high ∧ stopLoss < p.low) →
        c.high < entryPoint →
        rewarding (pre ++ c :: rest) entryPoint stopLoss targets startMs = 0)
  ∧ (∀ candles : List Candle,
        (∀ p ∈ candles, entryPoint ≤ p.high ∧ stopLoss < p.low) →
        scan entryPoint stopLoss candles (normalizeTargets targets) =
          .finished false none
            (candles.foldl (fun acc p => touchTargets p.high p.ts acc)
              (normalizeTargets targets))) := by
  constructor
  · intro pre c rest hpre hc
    rw [rewarding, scan_append_armed entryPoint stopLoss pre (c :: rest) hpre]
    simp only [scan]
    rw [if_neg (not_le.mpr hc)]
    rfl
  · intro candles h
    have happ := scan_append_armed entryPoint stopLoss candles [] h (normalizeTargets targets)
    rw [List.append_nil] at happ
    rw [happ]
    rfl

/-- Witness for the amended C1: after an arming candle, a candle with high
99 against entry 100 yields reward 0 even though a third candle follows. -/
theorem C1_amended_witness :
    rewarding [⟨0, 0, 120, 50, 0, 0⟩, ⟨60000, 0, 99, 98, 0, 0⟩, ⟨120000, 0, 500, 400, 0, 0⟩]
      100 1 [110] 0 = 0 :=
  (C1_scan_termination_amended 100 1 0 [110]).1 [⟨0, 0, 120, 50, 0, 0⟩]
    ⟨60000, 0, 99, 98, 0, 0⟩ [⟨120000, 0, 500, 400, 0, 0⟩] (by decide) (by decide)

/-- Claim C10 (confirmed): on a candle that is armed (`high ≥ entryPoint`)
and breaches the stop (`low ≤ stopLoss`), the stop check runs first: the
scan ends as a stop exit recording that candle's timestamp, the remaining
candles are never visited, and the candle marks no target as touched — even
when its high also reaches a still-untouched target's value. -/
theorem C10_stop_priority (pre : List Candle) (c : Candle) (rest : List Candle)
    (entryPoint stopLoss : ℚ) (ts0 : List NTarget)
    (hpre : ∀ p ∈ pre, entryPoint ≤ p.high ∧ stopLoss < p.low)
    (hc : entryPoint ≤ c.high) (hstop : c.low ≤ stopLoss)
    (_htgt : ∃ t ∈ pre.foldl (fun acc p => touchTargets p.high p.ts acc) ts0,
        t.touched = false ∧ t.value ≤ c.high) :
    scan entryPoint stopLoss (pre ++ c :: rest) ts0 =
      .finished true (some c.ts)
        (pre.foldl (fun acc p => touchTargets p.high p.ts acc) ts0) := by
  rw [scan_append_armed entryPoint stopLoss pre (c :: rest) hpre]
  simp only [scan]
  rw [if_pos hc, if_pos hstop]

/-- Witness for C10: a candle with high 130 and low 30 against stop 40 and
untouched target 120 resolves as a stop exit with the target untouched. -/
theorem C10_witness :
    scan 100 40 (([⟨0, 0, 105, 50, 0, 0⟩] : List Candle) ++ ⟨60000, 0, 130, 30, 0, 0⟩ :: [⟨120000, 0, 500, 400, 0, 0⟩])
      (normalizeTargets [120]) =
      .finished true (some 60000)
        (([⟨0, 0, 105, 50, 0, 0⟩] : List Candle).foldl (fun acc p => touchTargets p.high p.ts acc)
          (normalizeTargets [120])) :=
  C10_stop_priority [⟨0, 0, 105, 50, 0, 0⟩] ⟨60000, 0, 130, 30, 0, 0⟩
    [⟨120000, 0, 500, 400, 0, 0⟩] 100 40 (normalizeTargets [120])
    (by decide) (by decide) (by decide) (by decide)

/-- Claim C2 (code_bug): on the failing input — entry 100, stop 90, one
candle arming and breaching the stop at the window start, target 110 never
touched — the code returns `-((90 - 100)/100) * decay(0) = +1/10`, a
strictly **positive** reward, where the claim (and the spec's own data
model, which calls this branch a negative penalty) requires a strictly
negative one.  The sign slip: `penalty` is already negative when
`stopLoss < entryPoint`, and the code returns `-penalty`. -/
theorem C2_stop_only_reward_positive :
    rewarding [⟨0, 0, 100, 90, 0, 0⟩] 100 90 [110] 0 = 1 / 10 := by
  have h : scan 100 90 [⟨0, 0, 100, 90, 0, 0⟩] (normalizeTargets [110]) =
      .finished true (some 0) [⟨110, 0, false, none⟩] := by decide
  rw [rewarding, h]
  simp only [rewardOf, maxTouchedOf]
  norm_num [hoursBetween, jsNumber, decay, rewardBase, Real.rpow_zero]

/-- Claim C3 (corrected), counterexample: when the max touched target's
timestamp is the epoch (`0`), JavaScript truthiness sends the untouched-
target decay exponent to zero hours instead of
`hoursBetween(maxTouched.touchedAt, windowStart)`, so the code's reward
differs from the claim's formula.  Here the target at value 110 is touched
at timestamp 0 with the window starting one hour later. -/
theorem C3_counterexample :
    scan 100 1 [⟨0, 0, 110, 50, 0, 0⟩] (normalizeTargets [110, 200]) =
      .finished false none [⟨110, 0, true, some 0⟩, ⟨200, 1, false, none⟩] ∧
    rewarding [⟨0, 0, 110, 50, 0, 0⟩] 100 1 [110, 200] 3600000 ≠
      claimRewardFormula 100 3600000 ⟨110, 0, true, some 0⟩
        [⟨110, 0, true, some 0⟩, ⟨200, 1, false, none⟩] := by
  refine ⟨by decide, ?_⟩
  have h : scan 100 1 [⟨0, 0, 110, 50, 0, 0⟩] (normalizeTargets [110, 200]) =
      .finished false none [⟨110, 0, true, some 0⟩, ⟨200, 1, false, none⟩] := by decide
  rw [rewarding, h]
  simp only [rewardOf, maxTouchedOf, claimRewardFormula, meanR]
  norm_num [hoursBetween, jsNumber, jsTruthy, decay, rewardBase, timeCost, targetCost,
    touchedTerm, notTouchedTerm, claimNotTouchedTerm, maxTouchedReward,
    Real.rpow_zero, Real.rpow_one]

/-- Claim C3 (corrected), amended: whenever the scan finishes with at least
one touched target, the reward equals `maxTouchedReward + rewardPerTouched +
rewardPerNotTouched` exactly as the claim's formulas state, except that the
decay clock of the untouched-target mean is zero hours when the max touched
target's timestamp is null or `0` (JavaScript falsiness), rather than always
`hoursBetween(maxTouched.touchedAt, windowStart)`. -/
theorem C3_reward_formula_amended (candles : List Candle)
    (entryPoint stopLoss startMs : ℚ) (targets : List ℚ)
    (ex : Bool) (et : Option ℚ) (tgts : List NTarget) (mt : NTarget)
    (hscan : scan entryPoint stopLoss candles (normalizeTargets targets) =
      .finished ex et tgts)
    (hmem : mt ∈ tgts) (htch : mt.touched = true)
    (hmax : ∀ t ∈ tgts, t.touched = true → t.index ≤ mt.index) :
    rewarding candles entryPoint stopLoss targets startMs =
      amendedRewardFormula entryPoint startMs mt tgts := by
  have hnd : (tgts.map (fun t => t.index)).Nodup := by
    rw [scan_finished_map_index entryPoint stopLoss candles _ _ _ _ hscan]
    exact normalizeFrom_map_index_nodup targets 0
  have hmt := maxTouchedOf_eq_some tgts mt hnd hmem htch hmax
  rw [rewarding, hscan]
  simp only [rewardOf, hmt, amendedRewardFormula, meanR, List.length_map,
    rewardBase, mul_one]

/-- Witness for the amended C3: the counterexample input evaluated through
the amended formula. -/
theorem C3_amended_witness :
    rewarding [⟨0, 0, 110, 50, 0, 0⟩] 100 1 [110, 200] 3600000 =
      amendedRewardFormula 100 3600000 ⟨110, 0, true, some 0⟩
        [⟨110, 0, true, some 0⟩, ⟨200, 1, false, none⟩] :=
  C3_reward_formula_amended [⟨0, 0, 110, 50, 0, 0⟩] 100 1 3600000 [110, 200]
    false none [⟨110, 0, true, some 0⟩, ⟨200, 1, false, none⟩] ⟨110, 0, true, some 0⟩
    (by decide) (by decide) (by decide) (by decide)

/-- Claim C8 (corrected), counterexample: two runs identical except that the
second also touches the strictly higher-index target (same touch timestamp,
both target values above the entry point), yet the max-touched contribution
strictly decreases: with entry 100 and targets `[200, 201]`, touching index
1 swaps the contribution from `(100/100) * 0.99^0 = 1` to
`(101/100) * 0.99^1 = 0.9999`. -/
theorem C8_counterexample :
    scan 100 1 [⟨0, 0, 200, 150, 0, 0⟩] (normalizeTargets [200, 201]) =
      .finished false none [⟨200, 0, true, some 0⟩, ⟨201, 1, false, none⟩] ∧
    scan 100 1 [⟨0, 0, 201, 150, 0, 0⟩] (normalizeTargets [200, 201]) =
      .finished false none [⟨200, 0, true, some 0⟩, ⟨201, 1, true, some 0⟩] ∧
    maxTouchedOf [⟨200, 0, true, some 0⟩, ⟨201, 1, false, none⟩] = some ⟨200, 0, true, some 0⟩ ∧
    maxTouchedOf [⟨200, 0, true, some 0⟩, ⟨201, 1, true, some 0⟩] = some ⟨201, 1, true, some 0⟩ ∧
    maxTouchedReward 100 0 ⟨201, 1, true, some 0⟩ < maxTouchedReward 100 0 ⟨200, 0, true, some 0⟩ := by
  refine ⟨by decide, by decide, by decide, by decide, ?_⟩
  norm_num [maxTouchedReward, hoursBetween, jsNumber, decay, timeCost, targetCost,
    Real.rpow_zero]

/-- Claim C8 (corrected), amended: touching a strictly higher-index target
(same touch timestamp, both values above a positive entry) never decreases
the max-touched contribution **provided** the higher-index target's excess
over the entry compensates the extra rank decay:
`(v₂ - entry) * 0.99^{i₂} ≥ (v₁ - entry) * 0.99^{i₁}`.  Without that
proviso the contribution can strictly decrease, as the counterexample
shows. -/
theorem C8_maxTouchedReward_monotone_amended (entryPoint startMs : ℚ)
    (t1 t2 : NTarget)
    (he : 0 < entryPoint) (_hidx : t1.index < t2.index)
    (hts : t2.timestamp = t1.timestamp)
    (_hv1 : entryPoint < t1.value) (_hv2 : entryPoint < t2.value)
    (hcompR : ((t1.value : ℝ) - (entryPoint : ℝ)) * targetCost ^ t1.index ≤
      ((t2.value : ℝ) - (entryPoint : ℝ)) * targetCost ^ t2.index) :
    maxTouchedReward entryPoint startMs t1 ≤ maxTouchedReward entryPoint startMs t2 := by
  have heR : (0 : ℝ) < (entryPoint : ℚ) := by exact_mod_cast he
  have hd : (0 : ℝ) < decay (hoursBetween (jsNumber t1.timestamp) startMs) := by
    unfold decay timeCost
    exact Real.rpow_pos_of_pos (by norm_num) _
  unfold maxTouchedReward
  rw [hts]
  rw [show (((t1.value - entryPoint) / entryPoint : ℚ) : ℝ)
        * decay (hoursBetween (jsNumber t1.timestamp) startMs) * targetCost ^ t1.index
      = ((t1.value : ℝ) - (entryPoint : ℝ)) * targetCost ^ t1.index
        * decay (hoursBetween (jsNumber t1.timestamp) startMs) / (entryPoint : ℝ) by
    push_cast
    ring]
  rw [show (((t2.value - entryPoint) / entryPoint : ℚ) : ℝ)
        * decay (hoursBetween (jsNumber t1.timestamp) startMs) * targetCost ^ t2.index
      = ((t2.value : ℝ) - (entryPoint : ℝ)) * targetCost ^ t2.index
        * decay (hoursBetween (jsNumber t1.timestamp) startMs) / (entryPoint : ℝ) by
    push_cast
    ring]
  exact div_le_div_of_nonneg_right
    (mul_le_mul_of_nonneg_right hcompR (le_of_lt hd)) (le_of_lt heR)

/-- Witness for the amended C8: entry 100, lower target 110 at index 0,
higher target 200 at index 1 (compensation holds: 99 ≥ 10). -/
theorem C8_amended_witness :
    maxTouchedReward 100 0 ⟨110, 0, true, some 0⟩ ≤ maxTouchedReward 100 0 ⟨200, 1, true, some 0⟩ :=
  C8_maxTouchedReward_monotone_amended 100 0 ⟨110, 0, true, some 0⟩ ⟨200, 1, true, some 0⟩
    (by norm_num) (by norm_num) (by rfl) (by norm_num) (by norm_num)
    (by norm_num [targetCost])

/-- Claim C4 (corrected), counterexample: `calculateReward` returns a bare
scalar, so its return value cannot carry the per-target touched state: two
invocations whose scans end in different touch states (target value 100
touched in the first run, never armed in the second) return the identical
value `.ok 0`. -/
theorem C4_counterexample :
    calculateRewardRun (some "BTC/USDT") (some "2024-01-01T00:00:00Z")
        (some "2024-01-02T00:00:00Z") 100 1 [100] (.ok ([⟨0, 0, 100, 50, 0, 0⟩], 0))
      = calculateRewardRun (some "BTC/USDT") (some "2024-01-01T00:00:00Z")
        (some "2024-01-02T00:00:00Z") 100 1 [100] (.ok ([⟨0, 0, 99, 50, 0, 0⟩], 0))
  ∧ scan 100 1 [⟨0, 0, 100, 50, 0, 0⟩] (normalizeTargets [100]) ≠
      scan 100 1 [⟨0, 0, 99, 50, 0, 0⟩] (normalizeTargets [100]) := by
  refine ⟨?_, by decide⟩
  have hval : validateParams ⟨some "BTC/USDT", some "2024-01-01T00:00:00Z",
      some "2024-01-02T00:00:00Z", some (.fin 100), some (.fin 1),
      some ([(100 : ℚ)].map JNum.fin)⟩ = .ok () := rfl
  have h1 : rewarding [⟨0, 0, 100, 50, 0, 0⟩] 100 1 [100] 0 = 0 := by
    have hs : scan 100 1 [⟨0, 0, 100, 50, 0, 0⟩] (normalizeTargets [100]) =
        .finished false none [⟨100, 0, true, some 0⟩] := by decide
    rw [rewarding, hs]
    simp only [rewardOf, maxTouchedOf]
    norm_num [hoursBetween, jsNumber, jsTruthy, decay, rewardBase, targetCost,
      touchedTerm, notTouchedTerm, maxTouchedReward, Real.rpow_zero]
  have h2 : rewarding [⟨0, 0, 99, 50, 0, 0⟩] 100 1 [100] 0 = 0 := by
    have hs : scan 100 1 [⟨0, 0, 99, 50, 0, 0⟩] (normalizeTargets [100]) = .earlyZero := by
      decide
    rw [rewarding, hs]
    rfl
  simp only [calculateRewardRun, hval, h1, h2]

/-- Claim C4 (corrected), amended: on a successful invocation
`calculateReward` returns **only** the scalar `rewarding` result; the
per-target touched state is not part of it.  The orchestration layer
(`updateSignalStatus` in the signals controller) obtains per-target state
itself: after re-fetching candles, every target keeps its original position
(key) and its touched flag becomes
`touched || (value > entryPoint ? maxHigh ≥ value : minLow ≤ value)`. -/
theorem C4_scalar_only_amended :
    (∀ (market startTime endTime : Option String) (entryPoint stopLoss : ℚ)
        (targets : List ℚ) (candles : List Candle) (startMs : ℚ),
        validateParams ⟨market, startTime, endTime, some (.fin entryPoint),
            some (.fin stopLoss), some (targets.map JNum.fin)⟩ = .ok () →
        calculateRewardRun market startTime endTime entryPoint stopLoss targets
            (.ok (candles, startMs)) =
          .ok (rewarding candles entryPoint stopLoss targets startMs))
  ∧ (∀ (entryPoint : ℚ) (c : Candle) (cs : List Candle)
        (targets : List (ℚ × Bool)) (i : ℕ),
        (updateSignalTargets entryPoint (c :: cs) targets)[i]? =
          (targets[i]?).map (fun vt =>
            (toFixed8 vt.1,
              vt.2 || touchedByRange entryPoint (maxHighOf c cs) (minLowOf c cs) vt.1))) := by
  constructor
  · intro market startTime endTime entryPoint stopLoss targets candles startMs hval
    simp only [calculateRewardRun, hval]
  · intro entryPoint c cs targets i
    simp only [updateSignalTargets]
    exact List.getElem?_map ..

/-- Witness for the amended C4: a concrete successful run returns exactly
the scalar, and the controller's recompute marks target 105 touched from a
candle range reaching 110. -/
theorem C4_amended_witness :
    calculateRewardRun (some "BTC/USDT") (some "2024-01-01T00:00:00Z")
        (some "2024-01-02T00:00:00Z") 100 1 [100] (.ok ([⟨0, 0, 100, 50, 0, 0⟩], 0))
      = .ok (rewarding [⟨0, 0, 100, 50, 0, 0⟩] 100 1 [100] 0)
  ∧ (updateSignalTargets 100 [⟨0, 0, 110, 50, 0, 0⟩] [(105, false)])[0]? = some (105, true) := by
  constructor
  · exact C4_scalar_only_amended.1 (some "BTC/USDT") (some "2024-01-01T00:00:00Z")
      (some "2024-01-02T00:00:00Z") 100 1 [100] [⟨0, 0, 100, 50, 0, 0⟩] 0 rfl
  · rw [C4_scalar_only_amended.2 100 ⟨0, 0, 110, 50, 0, 0⟩ [] [(105, false)] 0]
    norm_num [toFixed8, round_eq, touchedByRange, maxHighOf, minLowOf]

/-- Claim C5 (corrected), counterexample: a `NaN` entry point is **not**
rejected — validation only checks `=== undefined` — so validation passes,
the upstream fetch is made, and the pipeline proceeds, where the claim
requires an `InvalidParameters` failure with no upstream request. -/
theorem C5_counterexample :
    validateParams ⟨some "BTC/USDT", some "2024-01-01T00:00:00Z",
        some "2024-01-02T00:00:00Z", some .nan, some (.fin 90), some [.fin 110]⟩ = .ok ()
  ∧ calculateRewardFetch ⟨some "BTC/USDT", some "2024-01-01T00:00:00Z",
        some "2024-01-02T00:00:00Z", some .nan, some (.fin 90), some [.fin 110]⟩
      (.ok ([⟨0, 0, 100, 50, 0, 0⟩], 0)) = .ok ([⟨0, 0, 100, 50, 0, 0⟩], 0) :=
  ⟨rfl, rfl⟩

/-- Claim C5 (corrected), amended: `calculateReward` fails before any candle
fetch whenever `targets` is empty or not an array, `market` is missing or
empty, either time bound is missing or empty, or `entryPoint`/`stopLoss` is
**undefined** (finiteness is not checked); in every such case the result is
the validation error for any fetch oracle whatsoever — no upstream request
is observed and no reward is produced. -/
theorem C5_validation_first_amended (p : CRParams)
    (h : jsTruthyStr p.market = false ∨ jsTruthyStr p.startTime = false ∨
        jsTruthyStr p.endTime = false ∨ p.entryPoint = none ∨ p.stopLoss = none ∨
        p.targets = none ∨ p.targets = some []) :
    ∃ m, validateParams p = .error m ∧
      ∀ fetched, calculateRewardFetch p fetched = .error m := by
  cases hval : validateParams p with
  | error m =>
    exact ⟨m, rfl, fun fetched => by simp [calculateRewardFetch, hval]⟩
  | ok u =>
    exfalso
    simp only [validateParams] at hval
    split_ifs at hval with h1 h2 h3
    cases hts : p.targets with
    | none => rw [hts] at hval; exact Except.noConfusion hval
    | some l =>
      cases l with
      | nil => rw [hts] at hval; exact Except.noConfusion hval
      | cons a as =>
        rcases h with h | h | h | h | h | h | h
        · rw [h] at h1; simp at h1
        · rw [h] at h2; simp at h2
        · rw [h] at h2; simp at h2
        · exact h3 (Or.inl h)
        · exact h3 (Or.inr h)
        · rw [h] at hts; exact Option.noConfusion hts
        · rw [h] at hts; simp at hts

/-- Witness for the amended C5: empty targets fail validation whatever the
fetch oracle would have answered. -/
theorem C5_amended_witness :
    ∃ m, validateParams ⟨some "BTC/USDT", some "2024-01-01T00:00:00Z",
        some "2024-01-02T00:00:00Z", some (.fin 100), some (.fin 90), some []⟩ = .error m ∧
      ∀ fetched, calculateRewardFetch ⟨some "BTC/USDT", some "2024-01-01T00:00:00Z",
          some "2024-01-02T00:00:00Z", some (.fin 100), some (.fin 90), some []⟩ fetched =
        .error m :=
  C5_validation_first_amended _
    (Or.inr (Or.inr (Or.inr (Or.inr (Or.inr (Or.inr rfl))))))

/-- Claim C9 (corrected), counterexample: the caller's `targets` argument is
the same after two calls whose touch outcomes differ (target 110 touched in
the first run, untouched in the second), so the caller's argument does not
reflect the touch outcomes — `rewarding` builds and mutates its own fresh
records instead of the caller's list. -/
theorem C9_counterexample :
    (rewardingCall [⟨0, 0, 120, 50, 0, 0⟩] 100 1 [110] 0).2 =
      (rewardingCall [⟨0, 0, 105, 50, 0, 0⟩] 100 1 [110] 0).2
  ∧ scan 100 1 [⟨0, 0, 120, 50, 0, 0⟩] (normalizeTargets [110]) ≠
      scan 100 1 [⟨0, 0, 105, 50, 0, 0⟩] (normalizeTargets [110]) :=
  ⟨rfl, by decide⟩

/-- Claim C9 (corrected), amended: `rewarding` copies the incoming numeric
target list into fresh per-invocation records (same values in order, all
starting untouched with a null timestamp) and records touches only on those
records; the caller's `targets` argument is unchanged after the call, so
callers need not deep-copy it. -/
theorem C9_no_caller_mutation_amended (candles : List Candle)
    (entryPoint stopLoss startMs : ℚ) (targets : List ℚ) :
    (rewardingCall candles entryPoint stopLoss targets startMs).2 = targets
  ∧ (normalizeTargets targets).map (fun t => t.value) = targets
  ∧ ∀ t ∈ normalizeTargets targets, t.touched = false ∧ t.timestamp = none :=
  ⟨rfl, normalizeFrom_map_value targets 0, normalizeFrom_untouched targets 0⟩

/-- Witness for the amended C9 at a concrete touching run. -/
theorem C9_amended_witness :
    (rewardingCall [⟨0, 0, 120, 50, 0, 0⟩] 100 1 [110] 0).2 = [110]
  ∧ (normalizeTargets [110]).map (fun t => t.value) = [110]
  ∧ ∀ t ∈ normalizeTargets [110], t.touched = false ∧ t.timestamp = none :=
  C9_no_caller_mutation_amended [⟨0, 0, 120, 50, 0, 0⟩] 100 1 0 [110]

/-- Claim C6 (confirmed): `getData` tries the venue candidates strictly in
order and returns the candles of the first venue yielding a non-empty
result, with earlier venues' errors not surfaced (first conjunct); it
throws only when every candidate fails — errors, yields nothing, or does
not build (second conjunct); and when it throws after some venue erred, the
error carries the message of the last venue error (third conjunct). -/
theorem C6_getData_fallback (endMs since0 : ℚ) (fuel : ℕ) (venues : List Venue) :
    (∀ (pre post : List Venue) (v : Venue) (c : Candle) (cs : List Candle),
        venues = pre ++ v :: post →
        (∀ u ∈ pre, failsVenue u endMs since0 fuel) →
        v.valid = true →
        venueOutcome v endMs since0 fuel = .ok (c :: cs) →
        getData venues endMs since0 fuel = .ok (c :: cs))
  ∧ (∀ er, getData venues endMs since0 fuel = .error er →
        ∀ u ∈ venues, failsVenue u endMs since0 fuel)
  ∧ (∀ (pre post : List Venue) (w : Venue) (m : String),
        venues = pre ++ w :: post →
        w.valid = true →
        venueOutcome w endMs since0 fuel = .error m →
        (∀ u ∈ post, ¬ errorsVenue u endMs since0 fuel) →
        (∀ u ∈ venues, failsVenue u endMs since0 fuel) →
        getData venues endMs since0 fuel = .error (.failed (some m))) := by
  refine ⟨?_, ?_, ?_⟩
  · intro pre post v c cs hv hpre hval hout
    have hvmem : v ∈ venues := by
      rw [hv]
      exact List.mem_append_right pre (List.mem_cons_self v post)
    have hnall : ¬(venues.all (fun u => !u.valid) = true) := by
      intro hall
      have := List.all_eq_true.mp hall v hvmem
      rw [hval] at this
      simp at this
    rw [getData, if_neg hnall, hv]
    exact tryVenues_first_success endMs since0 fuel pre post v c cs hpre hval hout none
  · intro er her u hu
    by_cases hall : venues.all (fun x => !x.valid) = true
    · have := List.all_eq_true.mp hall u hu
      exact Or.inl (by simpa using this)
    · rw [getData, if_neg hall] at her
      by_contra hnf
      rcases tryVenues_ok_of_not_fails endMs since0 fuel venues ⟨u, hu, hnf⟩ none with ⟨r, hr⟩
      rw [her] at hr
      exact Except.noConfusion hr
  · intro pre post w m hv hwval hwout hpost hall
    have hwmem : w ∈ venues := by
      rw [hv]
      exact List.mem_append_right pre (List.mem_cons_self w post)
    have hnall : ¬(venues.all (fun u => !u.valid) = true) := by
      intro hall2
      have := List.all_eq_true.mp hall2 w hwmem
      rw [hwval] at this
      simp at this
    rw [getData, if_neg hnall]
    rw [tryVenues_all_fail endMs since0 fuel venues hall none]
    rw [hv, lastErrAfter_append]
    simp only [lastErrAfter]
    rw [if_pos hwval, hwout]
    show Except.error (GetDataErr.failed (lastErrAfter endMs since0 fuel post (some m))) =
      Except.error (GetDataErr.failed (some m))
    rw [lastErrAfter_no_errors endMs since0 fuel post hpost (some m)]

/-- Witness for C6: first venue down, second venue unsupported, third venue
serving one candle — the fetch succeeds with the third venue's data. -/
theorem C6_witness :
    getData [⟨true, fun _ => .error "venue down"⟩, ⟨false, fun _ => .ok []⟩,
        ⟨true, fun _ => .ok [⟨0, 0, 100, 50, 0, 0⟩]⟩] 1 0 2 = .ok [⟨0, 0, 100, 50, 0, 0⟩] := by
  have hbad : venueOutcome ⟨true, fun _ => .error "venue down"⟩ 1 0 2 = .error "venue down" := by
    show pageLoop _ 1 2 0 [] = _
    rw [show (2 : ℕ) = 1 + 1 from rfl]
    rw [pageLoop]
    norm_num
  have hgood : venueOutcome ⟨true, fun _ => .ok [⟨0, 0, 100, 50, 0, 0⟩]⟩ 1 0 2 =
      .ok [⟨0, 0, 100, 50, 0, 0⟩] := by
    show pageLoop _ 1 2 0 [] = _
    rw [show (2 : ℕ) = 1 + 1 from rfl]
    rw [pageLoop]
    norm_num [nextSince, pageLoop]
  exact (C6_getData_fallback 1 0 2 _).1
    [⟨true, fun _ => .error "venue down"⟩, ⟨false, fun _ => .ok []⟩] []
    ⟨true, fun _ => .ok [⟨0, 0, 100, 50, 0, 0⟩]⟩ ⟨0, 0, 100, 50, 0, 0⟩ []
    rfl
    (by
      intro u hu
      rcases List.mem_cons.mp hu with rfl | hu2
      · exact Or.inr (Or.inl ⟨"venue down", hbad⟩)
      · rcases List.mem_cons.mp hu2 with rfl | hu3
        · exact Or.inl rfl
        · simp at hu3)
    rfl
    hgood

end Signalist
